import Mathlib

/-!
Shallow embedding of the IAM `Group` construct
(`packages/aws-cdk-lib/aws-iam/lib/group.ts`).

Strings are modelled as lists of characters (`Str`), so that the ARN
splitting and formatting machinery can be reasoned about by structural
induction.  Reference identity of JavaScript objects (managed policies,
inline `Policy` objects) is modelled by a numeric identity field, and
mutation is modelled by explicit state passing.  Calls to the external
diagnostics channel are recorded in a `warnings` ledger inside the group
state.
-/

namespace Iam

/-- Strings, as lists of characters. -/
abbrev Str := List Char

/-- A managed-policy reference (`IManagedPolicy`): `mpId` stands for the
reference identity of the JavaScript object, `managedPolicyArn` is its ARN
attribute. -/
structure ManagedPolicy where
  mpId : Nat
  managedPolicyArn : Str
deriving DecidableEq

/-- A policy statement (`PolicyStatement`), opaque payload identified for
bookkeeping. -/
structure PolicyStatement where
  sid : Nat
deriving DecidableEq

/-- An inline `Policy` object: `pid` models reference identity,
`statements` the statements accumulated via `addStatements`, and
`attachedToGroup` whether `attachToGroup` has been called on it with the
owning group. -/
structure Policy where
  pid : Nat
  statements : List PolicyStatement
  attachedToGroup : Bool
deriving DecidableEq

/-- The mutable state declared in the abstract class `GroupBase`, shared by
owned and imported groups: the lazily created default inline policy, plus a
fresh-identity source standing for allocation of new `Policy` objects. -/
structure GroupBaseState where
  defaultPolicy : Option Policy
  nextPid : Nat
deriving DecidableEq

/-- The result record `AddToPrincipalPolicyResult` as `GroupBase` returns
it: `statementAdded` flag and the default policy as dependency handle. -/
structure AddToPrincipalPolicyResult where
  statementAdded : Bool
  policyDependable : Policy
deriving DecidableEq

/-- `GroupBase.addToPrincipalPolicy`: when no default policy exists yet,
creates one (`new Policy(this, 'DefaultPolicy')`, modelled by allocating a
fresh `pid`) and attaches it to the group (`attachToGroup`); then appends
the statement via `addStatements` and returns
`{ statementAdded: true, policyDependable: this.defaultPolicy }`. -/
def GroupBase.addToPrincipalPolicy (g : GroupBaseState) (statement : PolicyStatement) :
    AddToPrincipalPolicyResult × GroupBaseState :=
  let pg : Policy × GroupBaseState :=
    match g.defaultPolicy with
    | none =>
      let p : Policy := { pid := g.nextPid, statements := [], attachedToGroup := true }
      (p, { defaultPolicy := some p, nextPid := g.nextPid + 1 })
    | some p => (p, g)
  let p : Policy := { pg.1 with statements := pg.1.statements ++ [statement] }
  ({ statementAdded := true, policyDependable := p },
   { pg.2 with defaultPolicy := some p })

/-- `GroupBase.addToPolicy`: returns
`this.addToPrincipalPolicy(statement).statementAdded`. -/
def GroupBase.addToPolicy (g : GroupBaseState) (statement : PolicyStatement) :
    Bool × GroupBaseState :=
  let rg := GroupBase.addToPrincipalPolicy g statement
  (rg.1.statementAdded, rg.2)

/-- An imported, identity-only group as produced by `Group.fromGroupArn` and
`Group.fromGroupName` (the local `Import extends GroupBase` class). -/
structure ImportedGroup where
  groupName : Str
  groupArn : Str
  principalAccount : Str
  base : GroupBaseState
deriving DecidableEq

/-- `GroupBase.addManagedPolicy`, the implementation an imported group
inherits: its body is the comment `// drop`, so the argument is discarded
and the state is unchanged. -/
def ImportedGroup.addManagedPolicy (g : ImportedGroup) (_policy : ManagedPolicy) :
    ImportedGroup :=
  g

/-- The state of an owned `Group`: physical name, the ordered
managed-policy ledger, the warnings emitted so far through the diagnostics
channel, and the inherited `GroupBase` state. -/
structure GroupState where
  physicalName : Str
  managedPolicies : List ManagedPolicy
  warnings : List Str
  base : GroupBaseState
deriving DecidableEq

/-- The message `Group.managedPoliciesExceededWarning` passes to the
diagnostics channel. -/
def warningMessage (g : GroupState) : Str :=
  "You added ".toList ++ (toString g.managedPolicies.length).toList ++
    " to IAM Group ".toList ++ g.physicalName ++
    ". The maximum number of managed policies attached to an IAM group is 10.".toList

/-- `Group.managedPoliciesExceededWarning`: when more than 10 managed
policies are attached, emits one warning through the diagnostics channel. -/
def managedPoliciesExceededWarning (g : GroupState) : GroupState :=
  if g.managedPolicies.length > 10 then
    { g with warnings := g.warnings ++ [warningMessage g] }
  else g

/-- `Group.addManagedPolicy`: a no-op when the exact same policy reference
is already present (`this.managedPolicies.find(mp => mp === policy)`),
otherwise appends the policy and re-evaluates the capacity warning. -/
def Group.addManagedPolicy (g : GroupState) (policy : ManagedPolicy) : GroupState :=
  if policy ∈ g.managedPolicies then g
  else managedPoliciesExceededWarning { g with managedPolicies := g.managedPolicies ++ [policy] }

/-- The `Group` constructor: pushes the initial batch of managed policies
onto the ledger, then runs `managedPoliciesExceededWarning` once. -/
def Group.construct (physicalName : Str) (initialPolicies : List ManagedPolicy) : GroupState :=
  managedPoliciesExceededWarning
    { physicalName := physicalName
      managedPolicies := initialPolicies
      warnings := []
      base := { defaultPolicy := none, nextPid := 0 } }

/-- The components record handed to the ARN formatter. -/
structure ArnComponents where
  service : Str
  region : Str
  resource : Str
  resourceName : Str
deriving DecidableEq

/-- The result of splitting an ARN with the
`ArnFormat.SLASH_RESOURCE_NAME` convention. -/
structure ArnParts where
  partition : Str
  service : Str
  region : Str
  account : Str
  resource : Str
  resourceName : Option Str
deriving DecidableEq

/-- Splits a list at every occurrence of the character `c`. -/
def splitOnChar (c : Char) : Str → List Str
  | [] => [[]]
  | x :: xs =>
    match splitOnChar c xs with
    | [] => [[x]]
    | r :: rs => if x = c then [] :: r :: rs else (x :: r) :: rs

/-- Splits a list at the first occurrence of the character `c`: the part
before it and, when `c` occurs at all, the part after it. -/
def splitFirst (c : Char) : Str → Str × Option Str
  | [] => ([], none)
  | x :: xs =>
    if x = c then ([], some xs)
    else
      let r := splitFirst c xs
      (x :: r.1, r.2)

/-- Modelled from the spec: the external ARN splitting service
(`Stack.splitArn` with the slash-resource-name convention), which is not
part of this source fragment.  The ARN is split into colon-separated
`arn`/partition/service/region/account/resource components, and the
resource component is split at its first slash into the resource type and
the resource name; everything after that first slash, embedded slashes
included, is the resource name.  `none` models the structural-parse error
the service throws on an ARN of the wrong shape. -/
def splitArnSlash (arn : Str) : Option ArnParts :=
  match splitOnChar ':' arn with
  | [a, p, s, r, acct, res] =>
    if a = "arn".toList then
      some { partition := p, service := s, region := r, account := acct,
             resource := (splitFirst '/' res).1, resourceName := (splitFirst '/' res).2 }
    else none
  | _ => none

/-- Modelled from the spec: the external ARN formatting service
(`Stack.formatArn`), not part of this source fragment.  It joins the
stack's partition and account with the given components, separating the
resource type from the resource name with a slash. -/
def formatArn (partition account : Str) (c : ArnComponents) : Str :=
  "arn".toList ++ ':' :: partition ++ ':' :: c.service ++ ':' :: c.region ++
    ':' :: account ++ ':' :: c.resource ++ '/' :: c.resourceName

/-- `Group.fromGroupArn`: splits the given ARN with the slash convention,
takes `resourceName!` as the group name, keeps the given ARN verbatim as
`groupArn`, and uses the split account as `principalAccount`.  `none`
models the declaration-time error thrown when the ARN cannot be split or
has no resource name. -/
def Group.fromGroupArn (groupArn : Str) : Option ImportedGroup :=
  match splitArnSlash groupArn with
  | some c =>
    match c.resourceName with
    | some rn =>
      some { groupName := rn, groupArn := groupArn, principalAccount := c.account,
             base := { defaultPolicy := none, nextPid := 0 } }
    | none => none
  | none => none

/-- `Group.fromGroupName`: formats an ARN with service `iam`, empty region,
resource `group` and the given name as resource name, then delegates to
`Group.fromGroupArn`. -/
def Group.fromGroupName (partition account groupName : Str) : Option ImportedGroup :=
  Group.fromGroupArn (formatArn partition account
    { service := "iam".toList, region := [], resource := "group".toList,
      resourceName := groupName })

/-- The resource-name expression the `Group` constructor passes to
`getResourceArnAttribute`: the path with one leading slash removed (and
empty when the path is absent or the empty string, which is falsy in
JavaScript), followed by the physical name. -/
def ownedGroupArnResourceName (path : Option Str) (physicalName : Str) : Str :=
  (match path with
   | some p =>
     if p = [] then []
     else if p.head? = some '/' then p.tail else p
   | none => []) ++ physicalName

/-- The ARN components record the `Group` constructor passes to
`getResourceArnAttribute`: service `iam`, region forced empty, resource
`group`, and the stripped-path resource name. -/
def ownedGroupArnComponents (path : Option Str) (physicalName : Str) : ArnComponents :=
  { service := "iam".toList, region := [], resource := "group".toList,
    resourceName := ownedGroupArnResourceName path physicalName }

/-- The claim's wording for the owned-group resource name: the path with a
single leading slash stripped. -/
def specStripLeadingSlash (p : Str) : Str :=
  if p.head? = some '/' then p.tail else p

/-- The producer the `Group` constructor hands to `Lazy.list`: the ARNs of
exactly the managed policies on the ledger at the moment the producer
runs. -/
def managedPolicyArnsProduce (g : GroupState) : List Str :=
  g.managedPolicies.map ManagedPolicy.managedPolicyArn

/-- Modelled from the spec: `Lazy.list(..., { omitEmpty: true })`, which is
core framework code outside this source fragment.  At emission time the
producer is invoked once; an empty produced list is omitted from the
template (`none`) rather than rendered as an empty list. -/
def lazyListOmitEmpty (produce : Unit → List Str) : Option (List Str) :=
  match produce () with
  | [] => none
  | l => some l

/-- The `managedPolicyArns` attribute of an owned group as it is emitted
into the template. -/
def emittedManagedPolicyArns (g : GroupState) : Option (List Str) :=
  lazyListOmitEmpty (fun _ => managedPolicyArnsProduce g)

/-- Modelled from the spec: resolution of the group name when the ARN is a
deferred (token) expression.  The splitting service cannot parse a token at
declaration time and instead emits a deferred select/split expression; at
resolution time it yields element 1 of the slash-split of element 5 of the
colon-split of the true ARN value, i.e. only the first path segment of the
resource name. -/
def resolveDeferredGroupName (trueArn : Str) : Option Str :=
  match (splitOnChar ':' trueArn)[5]? with
  | some res => (splitOnChar '/' res)[1]?
  | none => none

/-! Helper lemmas about the character-split functions. -/

theorem splitOnChar_ne_nil (c : Char) (xs : Str) : splitOnChar c xs ≠ [] := by
  cases xs with
  | nil => simp [splitOnChar]
  | cons x xs =>
    simp only [splitOnChar]
    cases h : splitOnChar c xs with
    | nil => simp
    | cons r rs =>
      by_cases hx : x = c <;> simp [hx]

theorem splitOnChar_not_mem (c : Char) (xs : Str) (h : c ∉ xs) :
    splitOnChar c xs = [xs] := by
  induction xs with
  | nil => rfl
  | cons x xs ih =>
    simp only [List.mem_cons, not_or] at h
    simp [splitOnChar, ih h.2, Ne.symm h.1]

theorem splitOnChar_append (c : Char) (xs ys : Str) (h : c ∉ xs) :
    splitOnChar c (xs ++ c :: ys) = xs :: splitOnChar c ys := by
  induction xs with
  | nil =>
    simp only [List.nil_append, splitOnChar]
    cases hy : splitOnChar c ys with
    | nil => exact absurd hy (splitOnChar_ne_nil c ys)
    | cons r rs => simp
  | cons x xs ih =>
    simp only [List.mem_cons, not_or] at h
    simp [splitOnChar, ih h.2, Ne.symm h.1]

theorem splitFirst_append (c : Char) (xs ys : Str) (h : c ∉ xs) :
    splitFirst c (xs ++ c :: ys) = (xs, some ys) := by
  induction xs with
  | nil => simp [splitFirst]
  | cons x xs ih =>
    simp only [List.mem_cons, not_or] at h
    simp [splitFirst, ih h.2, Ne.symm h.1]

theorem splitArnSlash_formatArn (partition account : Str) (c : ArnComponents)
    (hp : ':' ∉ partition) (hs : ':' ∉ c.service) (hr : ':' ∉ c.region)
    (ha : ':' ∉ account) (hres : ':' ∉ c.resource) (hrn : ':' ∉ c.resourceName)
    (hslash : '/' ∉ c.resource) :
    splitArnSlash (formatArn partition account c) =
      some { partition := partition, service := c.service, region := c.region,
             account := account, resource := c.resource,
             resourceName := some c.resourceName } := by
  have hres2 : ':' ∉ c.resource ++ '/' :: c.resourceName := by
    simp [List.mem_append, hres, hrn]
  simp only [formatArn, splitArnSlash, List.append_assoc, List.cons_append]
  rw [splitOnChar_append _ _ _ (by decide), splitOnChar_append _ _ _ hp,
    splitOnChar_append _ _ _ hs, splitOnChar_append _ _ _ hr,
    splitOnChar_append _ _ _ ha, splitOnChar_not_mem _ _ hres2]
  simp [splitFirst_append _ _ _ hslash]

/-! Helper lemmas about the managed-policy ledger. -/

theorem managedPoliciesExceededWarning_policies (g : GroupState) :
    (managedPoliciesExceededWarning g).managedPolicies = g.managedPolicies := by
  unfold managedPoliciesExceededWarning
  split <;> rfl

theorem managedPoliciesExceededWarning_warnings (g : GroupState) :
    (managedPoliciesExceededWarning g).warnings.length =
      g.warnings.length + (if g.managedPolicies.length > 10 then 1 else 0) := by
  unfold managedPoliciesExceededWarning
  split <;> simp_all

theorem addManagedPolicy_policies (g : GroupState) (p : ManagedPolicy) :
    (Group.addManagedPolicy g p).managedPolicies =
      if p ∈ g.managedPolicies then g.managedPolicies
      else g.managedPolicies ++ [p] := by
  unfold Group.addManagedPolicy
  split <;> simp_all [managedPoliciesExceededWarning_policies]

theorem addManagedPolicy_nodup (g : GroupState) (p : ManagedPolicy)
    (h : g.managedPolicies.Nodup) :
    (Group.addManagedPolicy g p).managedPolicies.Nodup := by
  rw [addManagedPolicy_policies]
  split
  · exact h
  · simp_all [List.nodup_append]

theorem construct_policies (n : Str) (ps : List ManagedPolicy) :
    (Group.construct n ps).managedPolicies = ps := by
  simp [Group.construct, managedPoliciesExceededWarning_policies]

/-- C1 part: a whole sequence of `addManagedPolicy` calls keeps the ledger
duplicate-free. -/
theorem foldl_addManagedPolicy_nodup (ps : List ManagedPolicy) (g : GroupState)
    (h : g.managedPolicies.Nodup) :
    ((ps.foldl Group.addManagedPolicy g).managedPolicies).Nodup := by
  induction ps generalizing g with
  | nil => simpa using h
  | cons p ps ih => exact ih _ (addManagedPolicy_nodup _ _ h)

/-- C1: `Group.addManagedPolicy` is idempotent with respect to reference
identity: adding a policy reference that is already on the `managedPolicies`
ledger leaves the whole group state unchanged, and after any sequence of
additions to a group constructed with a duplicate-free initial batch the
ordered ledger never contains the same policy reference twice. -/
theorem addManagedPolicy_idempotent_and_nodup :
    (∀ (g : GroupState) (p : ManagedPolicy), p ∈ g.managedPolicies →
      Group.addManagedPolicy g p = g) ∧
    (∀ (n : Str) (ps0 ps : List ManagedPolicy), ps0.Nodup →
      ((ps.foldl Group.addManagedPolicy (Group.construct n ps0)).managedPolicies).Nodup) := by
  constructor
  · intro g p hp
    simp [Group.addManagedPolicy, hp]
  · intro n ps0 ps h0
    refine foldl_addManagedPolicy_nodup ps _ ?_
    rw [construct_policies]
    exact h0

/-- C1 witness: a second addition of policy reference 0 is a no-op, and a
concrete sequence of additions with a repeated reference yields a
duplicate-free ledger. -/
theorem addManagedPolicy_idempotent_and_nodup_witness :
    Group.addManagedPolicy
        { physicalName := [], managedPolicies := [⟨0, []⟩], warnings := [],
          base := { defaultPolicy := none, nextPid := 0 } } ⟨0, []⟩ =
      { physicalName := [], managedPolicies := [⟨0, []⟩], warnings := [],
        base := { defaultPolicy := none, nextPid := 0 } } ∧
    (([⟨1, []⟩, ⟨1, []⟩, ⟨2, []⟩] : List ManagedPolicy).foldl Group.addManagedPolicy
        (Group.construct [] [⟨3, []⟩])).managedPolicies.Nodup :=
  ⟨addManagedPolicy_idempotent_and_nodup.1 _ _ (by decide),
   addManagedPolicy_idempotent_and_nodup.2 [] [⟨3, []⟩] _ (by decide)⟩

/-- C2: on an imported (identity-only) group, `addManagedPolicy` is a pure
no-op: one call, and likewise any sequence of calls, returns the state
unchanged in every field (name, arn, principal account, base state), and no
error is possible since the embedding is total. -/
theorem importedGroup_addManagedPolicy_noop :
    ∀ (g : ImportedGroup) (p : ManagedPolicy) (ps : List ManagedPolicy),
      ImportedGroup.addManagedPolicy g p = g ∧
      ps.foldl ImportedGroup.addManagedPolicy g = g := by
  intro g p ps
  refine ⟨rfl, ?_⟩
  induction ps with
  | nil => rfl
  | cons q ps ih => simpa [ImportedGroup.addManagedPolicy] using ih

/-- C3: `addToPrincipalPolicy` always reports `statementAdded = true` with
the group's default policy as the dependency handle; the first call creates
the default policy (fresh identity, attached to the group, holding exactly
the new statement) and later calls reuse the same policy object (same
identity, statement appended) instead of creating a new one. -/
theorem addToPrincipalPolicy_contract :
    ∀ (g : GroupBaseState) (s : PolicyStatement),
      (GroupBase.addToPrincipalPolicy g s).1.statementAdded = true ∧
      (GroupBase.addToPrincipalPolicy g s).2.defaultPolicy =
        some (GroupBase.addToPrincipalPolicy g s).1.policyDependable ∧
      (g.defaultPolicy = none →
        (GroupBase.addToPrincipalPolicy g s).1.policyDependable.pid = g.nextPid ∧
        (GroupBase.addToPrincipalPolicy g s).1.policyDependable.attachedToGroup = true ∧
        (GroupBase.addToPrincipalPolicy g s).1.policyDependable.statements = [s]) ∧
      (∀ p, g.defaultPolicy = some p →
        (GroupBase.addToPrincipalPolicy g s).1.policyDependable.pid = p.pid ∧
        (GroupBase.addToPrincipalPolicy g s).1.policyDependable.attachedToGroup =
          p.attachedToGroup ∧
        (GroupBase.addToPrincipalPolicy g s).1.policyDependable.statements =
          p.statements ++ [s]) := by
  intro g s
  cases hd : g.defaultPolicy with
  | none =>
    refine ⟨rfl, ?_, ?_, ?_⟩ <;> simp [GroupBase.addToPrincipalPolicy, hd]
  | some p =>
    refine ⟨rfl, ?_, ?_, ?_⟩ <;> simp [GroupBase.addToPrincipalPolicy, hd]

/-- C3 witness: evaluated on a fresh base state and then on the resulting
state, the contract holds concretely for both the creating call and the
reusing call. -/
theorem addToPrincipalPolicy_contract_witness :
    (GroupBase.addToPrincipalPolicy ⟨none, 0⟩ ⟨7⟩).1.policyDependable.statements =
      [⟨7⟩] ∧
    (GroupBase.addToPrincipalPolicy ⟨some ⟨0, [⟨7⟩], true⟩, 1⟩ ⟨8⟩).1.policyDependable.pid =
      (0 : Nat) ∧
    (GroupBase.addToPrincipalPolicy ⟨some ⟨0, [⟨7⟩], true⟩, 1⟩ ⟨8⟩).1.policyDependable.statements =
      [⟨7⟩] ++ [⟨8⟩] :=
  ⟨((addToPrincipalPolicy_contract ⟨none, 0⟩ ⟨7⟩).2.2.1 rfl).2.2,
   ((addToPrincipalPolicy_contract ⟨some ⟨0, [⟨7⟩], true⟩, 1⟩ ⟨8⟩).2.2.2 _ rfl).1,
   ((addToPrincipalPolicy_contract ⟨some ⟨0, [⟨7⟩], true⟩, 1⟩ ⟨8⟩).2.2.2 _ rfl).2.2⟩

/-- C10: `addToPolicy` is `addToPrincipalPolicy(statement).statementAdded`
and therefore returns `true` on every group state and statement: it can
never report a rejected statement. -/
theorem addToPolicy_always_true :
    ∀ (g : GroupBaseState) (s : PolicyStatement),
      (GroupBase.addToPolicy g s).1 =
        (GroupBase.addToPrincipalPolicy g s).1.statementAdded ∧
      (GroupBase.addToPolicy g s).1 = true := by
  intro g s
  exact ⟨rfl, rfl⟩

theorem addManagedPolicy_warnings_append (g : GroupState) (p : ManagedPolicy)
    (h : p ∉ g.managedPolicies) :
    (Group.addManagedPolicy g p).warnings.length =
      g.warnings.length + (if g.managedPolicies.length + 1 > 10 then 1 else 0) := by
  unfold Group.addManagedPolicy
  rw [if_neg h, managedPoliciesExceededWarning_warnings]
  simp

theorem construct_warnings (n : Str) (ps : List ManagedPolicy) :
    (Group.construct n ps).warnings.length = if ps.length > 10 then 1 else 0 := by
  unfold Group.construct
  rw [managedPoliciesExceededWarning_warnings]
  simp

/-- C4: each capacity check emits one warning exactly when the ledger holds
more than 10 managed policies; the constructor checks once after the whole
initial batch (so 11 initial policies give exactly one warning), each
`addManagedPolicy` that actually appends checks once more, and a duplicate
addition emits nothing; no check ever fails the operation. -/
theorem capacityWarning_exactly_once :
    (∀ (n : Str) (ps : List ManagedPolicy),
      (Group.construct n ps).warnings.length = if ps.length > 10 then 1 else 0) ∧
    (∀ (n : Str) (ps : List ManagedPolicy), ps.length = 11 →
      (Group.construct n ps).warnings.length = 1) ∧
    (∀ (g : GroupState) (p : ManagedPolicy), p ∉ g.managedPolicies →
      (Group.addManagedPolicy g p).warnings.length =
        g.warnings.length + (if g.managedPolicies.length + 1 > 10 then 1 else 0)) ∧
    (∀ (g : GroupState) (p : ManagedPolicy), p ∈ g.managedPolicies →
      (Group.addManagedPolicy g p).warnings = g.warnings) := by
  refine ⟨construct_warnings, ?_, addManagedPolicy_warnings_append, ?_⟩
  · intro n ps h
    rw [construct_warnings, h]
    rfl
  · intro g p h
    simp [Group.addManagedPolicy, h]

/-- C4 witness: constructing with 11 concrete policies emits exactly one
warning; an appending addition on a 10-policy group emits one more; a
duplicate addition emits none. -/
theorem capacityWarning_exactly_once_witness :
    (Group.construct [] ((List.range 11).map fun i => ⟨i, []⟩)).warnings.length = 1 ∧
    (Group.addManagedPolicy
        { physicalName := [], managedPolicies := (List.range 10).map fun i => ⟨i, []⟩,
          warnings := [], base := { defaultPolicy := none, nextPid := 0 } }
        ⟨10, []⟩).warnings.length =
      0 + (if 10 + 1 > 10 then 1 else 0) ∧
    (Group.addManagedPolicy
        { physicalName := [], managedPolicies := [⟨0, []⟩], warnings := [],
          base := { defaultPolicy := none, nextPid := 0 } } ⟨0, []⟩).warnings = [] := by
  refine ⟨capacityWarning_exactly_once.2.1 [] _ (by decide), ?_, ?_⟩
  · have h := capacityWarning_exactly_once.2.2.1
      { physicalName := [], managedPolicies := (List.range 10).map fun i => ⟨i, []⟩,
        warnings := [], base := { defaultPolicy := none, nextPid := 0 } }
      ⟨10, []⟩ (by decide)
    simpa using h
  · exact capacityWarning_exactly_once.2.2.2 _ _ (by decide)

/-- C5: for an owned group, the resource name passed to the ARN assembly is
the path with a single leading slash stripped (and an absent or empty path
treated as empty) followed by the physical name, and the region component
is the empty string; in particular path `/admins/` with physical name
`NetAdmin` yields resource name `admins/NetAdmin`. -/
theorem ownedGroupArn_resourceName_correct :
    (∀ (path : Option Str) (n : Str),
      (ownedGroupArnComponents path n).resourceName =
        specStripLeadingSlash (path.getD []) ++ n ∧
      (ownedGroupArnComponents path n).region = []) ∧
    (ownedGroupArnComponents (some "/admins/".toList) "NetAdmin".toList).resourceName =
      "admins/NetAdmin".toList := by
  refine ⟨?_, by decide⟩
  intro path n
  refine ⟨?_, rfl⟩
  cases path with
  | none => simp [ownedGroupArnComponents, ownedGroupArnResourceName, specStripLeadingSlash]
  | some p =>
    cases p with
    | nil => simp [ownedGroupArnComponents, ownedGroupArnResourceName, specStripLeadingSlash]
    | cons x rest =>
      simp [ownedGroupArnComponents, ownedGroupArnResourceName, specStripLeadingSlash]

/-- C9: the `managedPolicyArns` attribute is produced from the ledger at
emission time: it is the list of ARNs of exactly the policies then on the
ledger, it reflects policies added after construction, and an empty ledger
makes the attribute absent (`none`) rather than an empty list. -/
theorem emittedManagedPolicyArns_snapshot :
    (∀ g : GroupState,
      emittedManagedPolicyArns g =
        if g.managedPolicies = [] then none
        else some (g.managedPolicies.map ManagedPolicy.managedPolicyArn)) ∧
    (∀ (n : Str) (p : ManagedPolicy),
      emittedManagedPolicyArns (Group.addManagedPolicy (Group.construct n []) p) =
        some [p.managedPolicyArn]) ∧
    (∀ n : Str, emittedManagedPolicyArns (Group.construct n []) = none) := by
  refine ⟨?_, ?_, ?_⟩
  · intro g
    cases hm : g.managedPolicies with
    | nil => simp [emittedManagedPolicyArns, lazyListOmitEmpty, managedPolicyArnsProduce, hm]
    | cons q qs =>
      simp [emittedManagedPolicyArns, lazyListOmitEmpty, managedPolicyArnsProduce, hm]
  · intro n p
    have h1 : (Group.addManagedPolicy (Group.construct n []) p).managedPolicies = [p] := by
      rw [addManagedPolicy_policies, construct_policies]
      simp
    simp [emittedManagedPolicyArns, lazyListOmitEmpty, managedPolicyArnsProduce, h1]
  · intro n
    simp [emittedManagedPolicyArns, lazyListOmitEmpty, managedPolicyArnsProduce,
      construct_policies]

/-- C6: `fromGroupName` is defined purely in terms of `fromGroupArn`
applied to the ARN formatted with service `iam`, empty region, resource
`group` and the name as resource name; the imported group's ARN is exactly
that formatted ARN, and its name is the given name whenever the name
contains no slash. -/
theorem fromGroupName_via_fromGroupArn :
    ∀ (partition account n : Str),
      ':' ∉ partition → ':' ∉ account → ':' ∉ n →
      (Group.fromGroupName partition account n =
        Group.fromGroupArn (formatArn partition account
          { service := "iam".toList, region := [], resource := "group".toList,
            resourceName := n })) ∧
      (Option.map ImportedGroup.groupArn (Group.fromGroupName partition account n) =
        some (formatArn partition account
          { service := "iam".toList, region := [], resource := "group".toList,
            resourceName := n })) ∧
      ('/' ∉ n →
        Option.map ImportedGroup.groupName (Group.fromGroupName partition account n) =
          some n) := by
  intro partition account n hp ha hn
  have hsv : ':' ∉ "iam".toList := by decide
  have hrg : ':' ∉ ([] : Str) := by decide
  have hrt : ':' ∉ "group".toList := by decide
  have hrt2 : '/' ∉ "group".toList := by decide
  have hsplit := splitArnSlash_formatArn partition account
    { service := "iam".toList, region := [], resource := "group".toList, resourceName := n }
    hp hsv hrg ha hrt hn hrt2
  have himp : Group.fromGroupArn (formatArn partition account
      { service := "iam".toList, region := [], resource := "group".toList,
        resourceName := n }) =
      some { groupName := n,
             groupArn := formatArn partition account
               { service := "iam".toList, region := [], resource := "group".toList,
                 resourceName := n },
             principalAccount := account,
             base := { defaultPolicy := none, nextPid := 0 } } := by
    unfold Group.fromGroupArn
    rw [hsplit]
  refine ⟨rfl, ?_, ?_⟩
  · simp only [Group.fromGroupName, himp, Option.map_some']
  · intro _
    simp only [Group.fromGroupName, himp, Option.map_some']

/-- C6 witness: importing the name `MyGroup` in partition `aws`, account
`123456789012` yields the name back unchanged. -/
theorem fromGroupName_via_fromGroupArn_witness :
    Option.map ImportedGroup.groupName
        (Group.fromGroupName "aws".toList "123456789012".toList "MyGroup".toList) =
      some "MyGroup".toList :=
  (fromGroupName_via_fromGroupArn _ _ _ (by decide) (by decide) (by decide)).2.2 (by decide)

/-- C7: importing a literal ARN whose resource-name segment contains a
slash yields a group whose name is the full trailing path-plus-name after
the resource-type segment, embedded slashes included, and whose ARN is the
input ARN unchanged. -/
theorem fromGroupArn_full_path_name :
    ∀ (partition service region account rtype rn : Str),
      ':' ∉ partition → ':' ∉ service → ':' ∉ region → ':' ∉ account →
      ':' ∉ rtype → ':' ∉ rn → '/' ∉ rtype → '/' ∈ rn →
      Group.fromGroupArn (formatArn partition account
          { service := service, region := region, resource := rtype, resourceName := rn }) =
        some { groupName := rn,
               groupArn := formatArn partition account
                 { service := service, region := region, resource := rtype,
                   resourceName := rn },
               principalAccount := account,
               base := { defaultPolicy := none, nextPid := 0 } } := by
  intro partition service region account rtype rn hp hs hr ha hrt hrn hrt2 _
  have hsplit := splitArnSlash_formatArn partition account
    { service := service, region := region, resource := rtype, resourceName := rn }
    hp hs hr ha hrt hrn hrt2
  simp [Group.fromGroupArn, hsplit]

/-- C7 witness: the literal ARN for `group/admins/NetAdmin` imports with
the full name `admins/NetAdmin`, not just `admins`. -/
theorem fromGroupArn_full_path_name_witness :
    Group.fromGroupArn (formatArn "aws".toList "123456789012".toList
        { service := "iam".toList, region := [], resource := "group".toList,
          resourceName := "admins/NetAdmin".toList }) =
      some { groupName := "admins/NetAdmin".toList,
             groupArn := formatArn "aws".toList "123456789012".toList
               { service := "iam".toList, region := [], resource := "group".toList,
                 resourceName := "admins/NetAdmin".toList },
             principalAccount := "123456789012".toList,
             base := { defaultPolicy := none, nextPid := 0 } } :=
  fromGroupArn_full_path_name _ _ _ _ _ _ (by decide) (by decide) (by decide) (by decide)
    (by decide) (by decide) (by decide) (by decide)

/-- C8: when the ARN is a deferred expression whose true resource name has
a path (`seg ++ '/' :: rest` after the resource type), deferred resolution
still produces a name value, but that value is only the first path segment
`seg`, which differs from the full resource name. -/
theorem deferredArn_first_segment_only :
    ∀ (partition service region account rtype seg rest : Str),
      ':' ∉ partition → ':' ∉ service → ':' ∉ region → ':' ∉ account →
      ':' ∉ rtype → ':' ∉ seg → ':' ∉ rest → '/' ∉ rtype → '/' ∉ seg →
      resolveDeferredGroupName (formatArn partition account
          { service := service, region := region, resource := rtype,
            resourceName := seg ++ '/' :: rest }) = some seg ∧
      seg ≠ seg ++ '/' :: rest := by
  intro partition service region account rtype seg rest hp hs hr ha hrt hseg hrest hrt2 hseg2
  have hres : ':' ∉ rtype ++ '/' :: (seg ++ '/' :: rest) := by
    simp [List.mem_append, hrt, hseg, hrest]
  have h5 : splitOnChar ':' (formatArn partition account
      { service := service, region := region, resource := rtype,
        resourceName := seg ++ '/' :: rest }) =
      ["arn".toList, partition, service, region, account,
       rtype ++ '/' :: (seg ++ '/' :: rest)] := by
    simp only [formatArn, List.append_assoc, List.cons_append]
    rw [splitOnChar_append _ _ _ (by decide), splitOnChar_append _ _ _ hp,
      splitOnChar_append _ _ _ hs, splitOnChar_append _ _ _ hr,
      splitOnChar_append _ _ _ ha, splitOnChar_not_mem _ _ hres]
  have h6 : splitOnChar '/' (rtype ++ '/' :: (seg ++ '/' :: rest)) =
      rtype :: seg :: splitOnChar '/' rest := by
    rw [splitOnChar_append _ _ _ hrt2, splitOnChar_append _ _ _ hseg2]
  constructor
  · simp [resolveDeferredGroupName, h5, h6]
  · intro h
    have hlen := congrArg List.length h
    simp at hlen

/-- C8 witness: a deferred ARN whose true resource name is
`AdminGroup/NetworkAdmin` resolves to `AdminGroup` only. -/
theorem deferredArn_first_segment_only_witness :
    resolveDeferredGroupName (formatArn "aws".toList "123456789012".toList
        { service := "iam".toList, region := [], resource := "group".toList,
          resourceName := "AdminGroup".toList ++ '/' :: "NetworkAdmin".toList }) =
      some "AdminGroup".toList ∧
    "AdminGroup".toList ≠ "AdminGroup".toList ++ '/' :: "NetworkAdmin".toList :=
  deferredArn_first_segment_only _ _ _ _ _ _ _ (by decide) (by decide) (by decide)
    (by decide) (by decide) (by decide) (by decide) (by decide) (by decide)

end Iam
